import Mathlib

/-!
Verification development for the abr-test transcode control plane
(`src/main.go`): the job registry, its persistence, the submission and
status handlers, and the background job runner, embedded shallowly as
pure Lean functions over explicit state.
-/

namespace AbrTest

/-- A job record, translated from the Go struct `VideoMapping`
(`main.go` lines 15-19): original video name, derived output directory,
and a status string (`"processing"`, `"completed"`, `"failed"`). -/
structure VideoMapping where
  originalName : String
  transcodeDir : String
  status : String
deriving DecidableEq, Repr

/-- The in-memory job registry: the Go map `map[string]*VideoMapping`
keyed by original video name, modelled as an association list with
unique keys (map reads/writes below preserve key uniqueness). -/
abbrev Registry := List (String × VideoMapping)

/-- Go map read `state.mappings[videoName]` with the `, exists` form:
returns the record when the key is present. -/
def findMapping : Registry → String → Option VideoMapping
  | [], _ => none
  | (k, m) :: rest, v => if k = v then some m else findMapping rest v

/-- Go map assignment `state.mappings[videoName] = ...`: overwrites the
record at the key if present, otherwise adds it. -/
def insertMapping : Registry → String → VideoMapping → Registry
  | [], v, m => [(v, m)]
  | (k, m0) :: rest, v, m =>
    if k = v then (v, m) :: rest else (k, m0) :: insertMapping rest v m

/-- Model of Go `filepath.Ext`, scanning the reversed character list:
the suffix starting at the last dot of the final path element, empty if
the final element has no dot. `acc` holds the characters already passed
(in original order). -/
def extScan : List Char → List Char → List Char
  | _, [] => []
  | acc, c :: rest =>
    if c = '/' then []
    else if c = '.' then c :: acc
    else extScan (c :: acc) rest

/-- Go `filepath.Ext(path)` (used at `main.go` line 199). -/
def filepathExt (path : String) : String :=
  String.mk (extScan [] path.data.reverse)

/-- Go `strings.TrimSuffix(s, suf)`: drops `suf` from the end of `s`
when `s` ends with it, otherwise returns `s` unchanged. -/
def trimSuffix (s suf : String) : String :=
  if suf.data.isSuffixOf s.data then
    String.mk (s.data.take (s.data.length - suf.data.length))
  else s

/-- The output directory derived from a video name at submission
(`main.go` line 199): the filename stem, i.e. the name with its
extension trimmed. -/
def transcodeDirOf (videoName : String) : String :=
  trimSuffix videoName (filepathExt videoName)

/-- The stream locator `fmt.Sprintf("/hls/%s/master.m3u8", dir)`
(`main.go` lines 140, 185, 249). -/
def streamLocator (dir : String) : String :=
  "/hls/" ++ dir ++ "/master.m3u8"

/-- JSON values as produced and consumed by `encoding/json` for the
persisted registry document (`null` is omitted: it is produced by no
code path modelled here). -/
inductive Json where
  | str (s : String)
  | num (n : Int)
  | bool (b : Bool)
  | arr (elems : List Json)
  | obj (fields : List (String × Json))
deriving Repr

/-- `json.Marshal` of one `*VideoMapping`: an object with the three
tagged fields, in struct declaration order. -/
def marshalMapping (m : VideoMapping) : Json :=
  Json.obj [("original_name", Json.str m.originalName),
            ("transcode_dir", Json.str m.transcodeDir),
            ("status", Json.str m.status)]

/-- `TranscodeState.save` (`main.go` lines 310-317): marshals the whole
registry to the single JSON document written to the durable file. -/
def save (reg : Registry) : Json :=
  Json.obj (reg.map fun p => (p.1, marshalMapping p.2))

/-- The server state visible to handlers and runners: the in-memory
registry plus the durable file's contents (`none` when the file does
not exist). -/
structure ServerState where
  registry : Registry
  disk : Option Json
deriving Repr

/-- Result of the `os.Stat` existence check at `main.go` line 171:
success, an error satisfying `os.IsNotExist`, or any other error. -/
inductive StatResult where
  | ok
  | notExist
  | otherErr
deriving DecidableEq, Repr

/-- HTTP request methods, as far as the handlers inspect them. -/
inductive HttpMethod where
  | get
  | post
  | other
deriving DecidableEq, Repr

/-- The JSON/error responses `handleTranscode` can produce
(`main.go` lines 154-221). -/
inductive TranscodeResponse where
  | methodNotAllowed
  | missingParam
  | videoNotFound
  | alreadyTranscoded (transcodeDir streamUrl : String)
  | alreadyProcessing
  | started (transcodeDir : String)
deriving DecidableEq, Repr

/-- Outcome of one `handleTranscode` call: the response written, the
server state after the call, and the video a runner goroutine was
spawned for (if any). -/
structure TranscodeResult where
  response : TranscodeResponse
  state : ServerState
  spawned : Option String
deriving Repr

/-- The record-creation critical section plus runner spawn of
`handleTranscode` (`main.go` lines 198-214): creates the fresh
`processing` record, calls `save` inside the exclusive lock (a failed
write leaves the old file contents), and spawns the runner. -/
def createRecord (videoName : String) (saveOk : Bool) (st : ServerState) : ServerState :=
  let reg' := insertMapping st.registry videoName
    ⟨videoName, transcodeDirOf videoName, "processing"⟩
  { registry := reg', disk := if saveOk then some (save reg') else st.disk }

/-- The accepted-submission branch of `handleTranscode`
(`main.go` lines 198-220): create the record, spawn the runner,
respond "Transcoding started". -/
def startTranscodeJob (videoName : String) (saveOk : Bool) (st : ServerState) : TranscodeResult :=
  { response := TranscodeResponse.started (transcodeDirOf videoName),
    state := createRecord videoName saveOk st,
    spawned := some videoName }

/-- `handleTranscode` (`main.go` lines 154-221). `stat` is the outcome
of the `os.Stat` check on the source file; `saveOk` is whether the
`save` call's file write would succeed (its error is discarded by the
handler). -/
def handleTranscode (method : HttpMethod) (videoName : String) (stat : StatResult)
    (saveOk : Bool) (st : ServerState) : TranscodeResult :=
  if method ≠ HttpMethod.post then
    { response := TranscodeResponse.methodNotAllowed, state := st, spawned := none }
  else if videoName = "" then
    { response := TranscodeResponse.missingParam, state := st, spawned := none }
  else if stat = StatResult.notExist then
    { response := TranscodeResponse.videoNotFound, state := st, spawned := none }
  else
    match findMapping st.registry videoName with
    | some mapping =>
      if mapping.status = "completed" then
        { response := TranscodeResponse.alreadyTranscoded mapping.transcodeDir
            (streamLocator mapping.transcodeDir),
          state := st, spawned := none }
      else if mapping.status = "processing" then
        { response := TranscodeResponse.alreadyProcessing, state := st, spawned := none }
      else startTranscodeJob videoName saveOk st
    | none => startTranscodeJob videoName saveOk st

/-- The responses `handleStatus` can produce (`main.go` lines 223-253);
`streamUrl` is present exactly when the handler added the
`stream_url` field. -/
inductive StatusResponse where
  | missingName
  | notFound
  | ok (video transcodeDir status : String) (streamUrl : Option String)
deriving DecidableEq, Repr

/-- `handleStatus` (`main.go` lines 223-253): pure lookup under a read
lock; the returned registry is the (unchanged) registry after the call. -/
def handleStatus (videoName : String) (reg : Registry) : StatusResponse × Registry :=
  if videoName = "" then (StatusResponse.missingName, reg)
  else
    match findMapping reg videoName with
    | none => (StatusResponse.notFound, reg)
    | some mapping =>
      (StatusResponse.ok mapping.originalName mapping.transcodeDir mapping.status
        (if mapping.status = "completed"
         then some (streamLocator mapping.transcodeDir) else none), reg)

/-- The runner `transcode` (`main.go` lines 255-293) after the encoder
process has exited. `encoderErr` is `err != nil` from
`cmd.CombinedOutput()`. The map access `state.mappings[videoName]`
does not check presence; on an absent key the Go code dereferences a
nil pointer, modelled as `none`. The in-place status update and the
`save` call happen inside one exclusive-lock section, modelled as this
single atomic transition. -/
def transcode (videoName : String) (encoderErr saveOk : Bool) (st : ServerState) :
    Option ServerState :=
  match findMapping st.registry videoName with
  | none => none
  | some mapping =>
    let reg' := insertMapping st.registry videoName
      { mapping with status := if encoderErr then "failed" else "completed" }
    some { registry := reg', disk := if saveOk then some (save reg') else st.disk }

/-- One field of the JSON object decoded into a `VideoMapping` by
`json.Unmarshal`: a recognised key whose value is a string sets the
field; a recognised key with a non-string value is a type error, which
`Unmarshal` records and skips, completing the rest ("skips that field
and completes the unmarshaling as best it can"); unknown keys are
ignored. Returns the updated record and whether a type error occurred. -/
def setField (m : VideoMapping) (key : String) (j : Json) : VideoMapping × Bool :=
  if key = "original_name" then
    match j with
    | Json.str s => ({ m with originalName := s }, false)
    | _ => (m, true)
  else if key = "transcode_dir" then
    match j with
    | Json.str s => ({ m with transcodeDir := s }, false)
    | _ => (m, true)
  else if key = "status" then
    match j with
    | Json.str s => ({ m with status := s }, false)
    | _ => (m, true)
  else (m, false)

/-- Decode the field list of one record object, accumulating the
type-error flag. -/
def decodeFields : VideoMapping → Bool → List (String × Json) → VideoMapping × Bool
  | m, e, [] => (m, e)
  | m, e, (k, j) :: rest =>
    let r := setField m k j
    decodeFields r.1 (e || r.2) rest

/-- `json.Unmarshal` of one registry entry's value into a freshly
allocated `*VideoMapping` (zero value: empty strings). A non-object
value is a type error; the zero-valued record is still stored. -/
def decodeMapping (j : Json) : VideoMapping × Bool :=
  match j with
  | Json.obj fields => decodeFields ⟨"", "", ""⟩ false fields
  | _ => (⟨"", "", ""⟩, true)

/-- Decode the entries of the top-level JSON object into the (non-nil,
possibly populated) Go map: each entry is decoded and stored, type
errors are recorded and decoding continues with the next entry. -/
def decodeEntries : Registry → Bool → List (String × Json) → Registry × Bool
  | reg, e, [] => (reg, e)
  | reg, e, (k, j) :: rest =>
    let r := decodeMapping j
    decodeEntries (insertMapping reg k r.1) (e || r.2) rest

/-- `json.Unmarshal(data, &s.mappings)` on a syntactically valid JSON
document: the top level must be an object (anything else is a type
error leaving the map untouched); its entries are merged into the
current map. Returns the resulting map and whether an error is
returned to the caller. -/
def unmarshalRegistry (current : Registry) (j : Json) : Registry × Bool :=
  match j with
  | Json.obj fields => decodeEntries current false fields
  | _ => (current, true)

/-- Outcome of `os.ReadFile` on the durable file, as `load` inspects
it: the file is absent, some other read error occurred, the bytes are
not valid JSON (`Unmarshal` rejects them before storing anything), or
they parse to a JSON value. -/
inductive ReadResult where
  | notExist
  | readErr
  | syntaxErr
  | ok (j : Json)
deriving Repr

/-- `TranscodeState.load` (`main.go` lines 295-308): a missing file is
no error and leaves the mappings unchanged; any other read error is
returned with the mappings unchanged; otherwise the document is
unmarshalled into the current mappings. Returns the resulting mappings
and whether an error was returned to the caller (`main` logs it as a
warning and continues, `main.go` lines 36-39). -/
def load (current : Registry) (r : ReadResult) : Registry × Bool :=
  match r with
  | ReadResult.notExist => (current, false)
  | ReadResult.readErr => (current, true)
  | ReadResult.syntaxErr => (current, true)
  | ReadResult.ok j => unmarshalRegistry current j

/-- Number of occurrences of a video name in a list (used to count
active runners). -/
def countOcc : List String → String → Nat
  | [], _ => 0
  | x :: xs, v => (if x = v then 1 else 0) + countOcc xs v

/-- Remove one occurrence of a video name (one runner finishing). -/
def removeOne : List String → String → List String
  | [], _ => []
  | x :: xs, v => if x = v then xs else x :: removeOne xs v

/-- Whole-system state for the event-trace semantics: the server state
plus the multiset of videos whose spawned runner has not yet finished. -/
structure SysState where
  srv : ServerState
  active : List String
deriving Repr

/-- State at startup with no durable file: empty registry, no file
(`main.go` lines 29-39). -/
def initState : SysState :=
  { srv := { registry := [], disk := none }, active := [] }

/-- Events of the trace semantics: a POST submission handled to
completion (its check and create sections not interleaved with other
events), or a spawned runner finishing with the encoder's outcome. -/
inductive Event where
  | submit (videoName : String) (stat : StatResult) (saveOk : Bool)
  | finish (videoName : String) (encoderErr saveOk : Bool)
deriving DecidableEq, Repr

/-- One atomic event applied to the system state. A `finish` for a
video whose record is absent would be the runner's nil dereference;
the state is left unchanged there (the case is proved unreachable for
valid traces). -/
def stepEvent (s : SysState) : Event → SysState
  | Event.submit v stat saveOk =>
    let r := handleTranscode HttpMethod.post v stat saveOk s.srv
    { srv := r.state,
      active := match r.spawned with
                | some w => w :: s.active
                | none => s.active }
  | Event.finish v encoderErr saveOk =>
    match transcode v encoderErr saveOk s.srv with
    | some srv' => { srv := srv', active := removeOne s.active v }
    | none => s

/-- An event is enabled in a state: submissions always are; a runner
can finish only for a video that has an active runner. -/
def eventValid (s : SysState) : Event → Bool
  | Event.submit _ _ _ => true
  | Event.finish v _ _ => countOcc s.active v != 0

/-- Every event of the trace is enabled in the state it fires in. -/
def validFrom (s : SysState) : List Event → Bool
  | [] => true
  | e :: es => eventValid s e && validFrom (stepEvent s e) es

/-- Run a trace of events. -/
def runEvents (s : SysState) : List Event → SysState
  | [] => s
  | e :: es => runEvents (stepEvent s e) es

/-- The pre-lock phase of a POST `handleTranscode` request
(`main.go` lines 163-196): the parameter and `os.Stat` checks followed
by the read-locked registry lookup. Returns whether the request
proceeds to record creation (lines 198-214); on `false` the handler
responded without mutating anything. This is the handler's first
critical section, released (`mu.RUnlock`, line 179) before the
creation section acquires the write lock (line 204). -/
def gatePasses (reg : Registry) (videoName : String) (stat : StatResult) : Bool :=
  if videoName = "" then false
  else if stat = StatResult.notExist then false
  else
    match findMapping reg videoName with
    | some mapping =>
      !(mapping.status == "completed") && !(mapping.status == "processing")
    | none => true

/-- Progress of one in-flight submission request through the two
critical sections of `handleTranscode`. -/
inductive SubPhase where
  | start
  | create
  | done
deriving DecidableEq, Repr

/-- One in-flight POST submission request. -/
structure SubReq where
  video : String
  stat : StatResult
  saveOk : Bool
  phase : SubPhase
deriving DecidableEq, Repr

/-- State of the server together with concurrently executing
submission requests and the runners spawned so far. -/
structure ConcState where
  srv : ServerState
  reqs : List SubReq
  spawned : List String
deriving Repr

/-- Advance request `i` by one critical section: its gate check
(read lock), or its record-creation section followed by the runner
spawn (write lock, then `go transcode(...)`). Distinct requests may
interleave between the two sections, exactly as the Go handler's two
lock scopes allow. -/
def concStep (cs : ConcState) (i : Nat) : ConcState :=
  match cs.reqs[i]? with
  | none => cs
  | some r =>
    match r.phase with
    | SubPhase.start =>
      if gatePasses cs.srv.registry r.video r.stat then
        { cs with reqs := cs.reqs.set i { r with phase := SubPhase.create } }
      else
        { cs with reqs := cs.reqs.set i { r with phase := SubPhase.done } }
    | SubPhase.create =>
      { srv := createRecord r.video r.saveOk cs.srv,
        reqs := cs.reqs.set i { r with phase := SubPhase.done },
        spawned := cs.spawned ++ [r.video] }
    | SubPhase.done => cs

/-- Run a schedule: at each step the named request executes its next
critical section. -/
def runSchedule (cs : ConcState) : List Nat → ConcState
  | [] => cs
  | i :: is => runSchedule (concStep cs i) is

/-- Two concurrent POST submissions for the same existing video
against a fresh server. -/
def twoSubmissions : ConcState :=
  { srv := { registry := [], disk := none },
    reqs := [{ video := "a.mp4", stat := StatResult.ok, saveOk := true, phase := SubPhase.start },
             { video := "a.mp4", stat := StatResult.ok, saveOk := true, phase := SubPhase.start }],
    spawned := [] }

/-- The operator-log lines written by `handleTranscode`
(`main.go` lines 154-221): the handler body contains no logging call at
all; in particular the error returned by the `state.save()` call at
line 210 is discarded without being logged. -/
def handleTranscodeLogs (method : HttpMethod) (videoName : String) (stat : StatResult)
    (saveOk : Bool) (st : ServerState) : List String :=
  []

/-- The operator-log lines written by the runner `transcode`
(`main.go` lines 256, 285, 288): a start line, then one terminal line
about the encoder outcome — on failure including the encoder's
diagnostic output (`err` and `output`, abstracted as
`encoderDiagnostic`). The error returned by the `state.save()` call at
line 292 is discarded without being logged: no line depends on
`saveOk`. -/
def transcodeLogs (videoName encoderDiagnostic : String) (encoderErr saveOk : Bool) :
    List String :=
  ["Starting transcode for: " ++ videoName] ++
  (if encoderErr
   then ["Transcode failed for " ++ videoName ++ ": " ++ encoderDiagnostic]
   else ["Transcode completed for: " ++ videoName])

/-! ### Registry lemmas -/

theorem findMapping_insertMapping_self (l : Registry) (v : String) (m : VideoMapping) :
    findMapping (insertMapping l v m) v = some m := by
  induction l with
  | nil => simp [insertMapping, findMapping]
  | cons p rest ih =>
    obtain ⟨k, m0⟩ := p
    by_cases hk : k = v
    · simp [insertMapping, hk, findMapping]
    · simp [insertMapping, hk, findMapping, ih]

theorem findMapping_insertMapping_ne (l : Registry) (v w : String) (m : VideoMapping)
    (hvw : v ≠ w) : findMapping (insertMapping l v m) w = findMapping l w := by
  induction l with
  | nil => simp [insertMapping, findMapping, hvw]
  | cons p rest ih =>
    obtain ⟨k, m0⟩ := p
    by_cases hk : k = v
    · subst hk
      simp [insertMapping, findMapping, hvw]
    · simp [insertMapping, hk, findMapping, ih]

theorem insertMapping_append (l : Registry) (v : String) (m : VideoMapping)
    (hv : ∀ p ∈ l, Prod.fst p ≠ v) : insertMapping l v m = l ++ [(v, m)] := by
  induction l with
  | nil => simp [insertMapping]
  | cons p rest ih =>
    obtain ⟨k, m0⟩ := p
    have hk : k ≠ v := hv (k, m0) (List.mem_cons_self _ _)
    simp only [insertMapping, if_neg hk, List.cons_append, List.cons.injEq, true_and]
    exact ih fun q hq => hv q (List.mem_cons_of_mem _ hq)

/-! ### Runner-count lemmas -/

theorem countOcc_removeOne_self (l : List String) (v : String) :
    countOcc (removeOne l v) v = countOcc l v - 1 := by
  induction l with
  | nil => simp [removeOne, countOcc]
  | cons x xs ih =>
    by_cases hx : x = v
    · simp [removeOne, hx, countOcc]
    · simp [removeOne, hx, countOcc, ih]

theorem countOcc_removeOne_ne (l : List String) (v w : String) (hvw : w ≠ v) :
    countOcc (removeOne l v) w = countOcc l w := by
  induction l with
  | nil => simp [removeOne]
  | cons x xs ih =>
    by_cases hx : x = v
    · subst hx
      simp [removeOne, countOcc, (Ne.symm hvw : x ≠ w)]
    · simp [removeOne, hx, countOcc, ih]

/-! ### Handler and runner characterisations -/

/-- There is a `processing` record for the video. -/
def processingAt (reg : Registry) (v : String) : Prop :=
  ∃ m, findMapping reg v = some m ∧ m.status = "processing"

/-- Every `handleTranscode` call either responds without touching the
state and without spawning, or is an accepted submission: it behaves as
`startTranscodeJob`, and then the prior record (if any) was neither
`completed` nor `processing`. -/
theorem handleTranscode_cases (method : HttpMethod) (v : String) (stat : StatResult)
    (saveOk : Bool) (st : ServerState) :
    ((handleTranscode method v stat saveOk st).state = st ∧
      (handleTranscode method v stat saveOk st).spawned = none) ∨
    (handleTranscode method v stat saveOk st = startTranscodeJob v saveOk st ∧
      ¬ processingAt st.registry v ∧
      (∀ m, findMapping st.registry v = some m →
        m.status ≠ "completed" ∧ m.status ≠ "processing")) := by
  by_cases hm : method = HttpMethod.post
  · subst hm
    by_cases hv : v = ""
    · left
      simp [handleTranscode, hv]
    · by_cases hs : stat = StatResult.notExist
      · left
        simp [handleTranscode, hv, hs]
      · cases hfind : findMapping st.registry v with
        | none =>
          right
          refine ⟨?_, ?_, ?_⟩
          · simp [handleTranscode, hv, hs, hfind]
          · rintro ⟨m, hm', _⟩
            simp [hfind] at hm'
          · intro m hm'
            simp [hfind] at hm'
        | some mapping =>
          by_cases hc : mapping.status = "completed"
          · left
            simp [handleTranscode, hv, hs, hfind, hc]
          · by_cases hp : mapping.status = "processing"
            · left
              simp [handleTranscode, hv, hs, hfind, hc, hp]
            · right
              refine ⟨?_, ?_, ?_⟩
              · simp [handleTranscode, hv, hs, hfind, hc, hp]
              · rintro ⟨m, hm', hm's⟩
                rw [hfind] at hm'
                injection hm' with hmm
                subst hmm
                exact hp hm's
              · intro m hm'
                injection hm' with hmm
                subst hmm
                exact ⟨hc, hp⟩
  · left
    simp [handleTranscode, hm]

/-- When the video's record is present, the runner succeeds and
produces the updated state. -/
theorem transcode_eq_of_find (v : String) (encoderErr saveOk : Bool) (st : ServerState)
    (m : VideoMapping) (hm : findMapping st.registry v = some m) :
    transcode v encoderErr saveOk st =
      some { registry := insertMapping st.registry v
               { m with status := if encoderErr then "failed" else "completed" },
             disk := if saveOk
                     then some (save (insertMapping st.registry v
                       { m with status := if encoderErr then "failed" else "completed" }))
                     else st.disk } := by
  unfold transcode
  rw [hm]

/-- When the video's record is absent, the runner dereferences nil. -/
theorem transcode_none_of_find_none (v : String) (encoderErr saveOk : Bool)
    (st : ServerState) (hm : findMapping st.registry v = none) :
    transcode v encoderErr saveOk st = none := by
  unfold transcode
  rw [hm]

/-! ### Trace invariant -/

/-- Records the system ever creates: keyed by their own name, output
directory the filename stem, status one of the three legal values. -/
def goodRecord (v : String) (m : VideoMapping) : Prop :=
  m.originalName = v ∧ m.transcodeDir = transcodeDirOf v ∧
    (m.status = "processing" ∨ m.status = "completed" ∨ m.status = "failed")

/-- Trace invariant: per video, at most one active runner, an active
runner exactly when the record is `processing`, and every stored
record is well-formed. -/
def Inv (s : SysState) : Prop :=
  ∀ v, countOcc s.active v ≤ 1 ∧
    (countOcc s.active v = 1 ↔ processingAt s.srv.registry v) ∧
    (∀ m, findMapping s.srv.registry v = some m → goodRecord v m)

theorem inv_init : Inv initState := by
  intro v
  refine ⟨by simp [initState, countOcc], ?_, ?_⟩
  · constructor
    · intro h
      simp [initState, countOcc] at h
    · rintro ⟨m, hm, _⟩
      simp [initState, findMapping] at hm
  · intro m hm
    simp [initState, findMapping] at hm

theorem inv_step (s : SysState) (e : Event) (hInv : Inv s) (hval : eventValid s e = true) :
    Inv (stepEvent s e) := by
  cases e with
  | submit v stat saveOk =>
    rcases handleTranscode_cases HttpMethod.post v stat saveOk s.srv with
      ⟨hst, hsp⟩ | ⟨heq, hnp, _⟩
    · intro w
      simp only [stepEvent, hsp, hst]
      exact hInv w
    · have hcount0 : countOcc s.active v = 0 := by
        obtain ⟨hle, hiff, _⟩ := hInv v
        have : countOcc s.active v ≠ 1 := fun h => hnp (hiff.mp h)
        omega
      have hstep : stepEvent s (Event.submit v stat saveOk) =
          { srv := createRecord v saveOk s.srv, active := v :: s.active } := by
        simp only [stepEvent, heq, startTranscodeJob]
      rw [hstep]
      intro w
      dsimp only [createRecord]
      by_cases hw : w = v
      · subst hw
        refine ⟨by simp [countOcc, hcount0], ?_, ?_⟩
        · constructor
          · intro _
            exact ⟨_, findMapping_insertMapping_self _ _ _, rfl⟩
          · intro _
            simp [countOcc, hcount0]
        · intro m hm
          rw [findMapping_insertMapping_self] at hm
          injection hm with hmm
          subst hmm
          exact ⟨rfl, rfl, Or.inl rfl⟩
      · have hvw : v ≠ w := fun h => hw h.symm
        have hfw := findMapping_insertMapping_ne s.srv.registry v w
          ⟨v, transcodeDirOf v, "processing"⟩ hvw
        obtain ⟨h1, h2, h3⟩ := hInv w
        have hcw : countOcc (v :: s.active) w = countOcc s.active w := by
          simp [countOcc, if_neg hvw]
        refine ⟨?_, ?_, ?_⟩
        · rw [hcw]
          exact h1
        · rw [hcw]
          constructor
          · intro h
            obtain ⟨m, hm, hms⟩ := h2.mp h
            refine ⟨m, ?_, hms⟩
            rw [hfw]
            exact hm
          · rintro ⟨m, hm, hms⟩
            rw [hfw] at hm
            exact h2.mpr ⟨m, hm, hms⟩
        · intro m hm
          rw [hfw] at hm
          exact h3 m hm
  | finish v encoderErr saveOk =>
    have hc0 : countOcc s.active v ≠ 0 := by
      simpa [eventValid] using hval
    obtain ⟨hle, hiff, hgood⟩ := hInv v
    have hc1 : countOcc s.active v = 1 := by omega
    obtain ⟨m, hm, hms⟩ := hiff.mp hc1
    have hgm := hgood m hm
    have hstep : stepEvent s (Event.finish v encoderErr saveOk) =
        { srv := { registry := insertMapping s.srv.registry v
                     { m with status := if encoderErr then "failed" else "completed" },
                   disk := if saveOk
                           then some (save (insertMapping s.srv.registry v
                             { m with status := if encoderErr then "failed" else "completed" }))
                           else s.srv.disk },
          active := removeOne s.active v } := by
      simp only [stepEvent, transcode_eq_of_find v encoderErr saveOk s.srv m hm]
    rw [hstep]
    intro w
    dsimp only
    by_cases hw : w = v
    · subst hw
      have hcr : countOcc (removeOne s.active w) w = 0 := by
        rw [countOcc_removeOne_self, hc1]
      have hterm : (if encoderErr then "failed" else "completed") ≠ "processing" := by
        cases encoderErr <;> decide
      refine ⟨by omega, ?_, ?_⟩
      · constructor
        · intro h
          omega
        · rintro ⟨m', hm', hm's⟩
          rw [findMapping_insertMapping_self] at hm'
          injection hm' with hmm
          subst hmm
          exact absurd hm's hterm
      · intro m' hm'
        rw [findMapping_insertMapping_self] at hm'
        injection hm' with hmm
        subst hmm
        refine ⟨hgm.1, hgm.2.1, ?_⟩
        cases encoderErr
        · exact Or.inr (Or.inl rfl)
        · exact Or.inr (Or.inr rfl)
    · have hvw : v ≠ w := fun h => hw h.symm
      have hfw := findMapping_insertMapping_ne s.srv.registry v w
        { m with status := if encoderErr then "failed" else "completed" } hvw
      obtain ⟨h1, h2, h3⟩ := hInv w
      refine ⟨?_, ?_, ?_⟩
      · rw [countOcc_removeOne_ne s.active v w hw]
        exact h1
      · rw [countOcc_removeOne_ne s.active v w hw]
        constructor
        · intro h
          obtain ⟨m', hm', hms'⟩ := h2.mp h
          refine ⟨m', ?_, hms'⟩
          rw [hfw]
          exact hm'
        · rintro ⟨m', hm', hms'⟩
          rw [hfw] at hm'
          exact h2.mpr ⟨m', hm', hms'⟩
      · intro m' hm'
        rw [hfw] at hm'
        exact h3 m' hm'

theorem inv_runEvents (es : List Event) :
    ∀ s, Inv s → validFrom s es = true → Inv (runEvents s es) := by
  induction es with
  | nil =>
    intro s h _
    exact h
  | cons e es ih =>
    intro s h hv
    rw [validFrom, Bool.and_eq_true] at hv
    exact ih (stepEvent s e) (inv_step s e h hv.1) hv.2

/-- Every state reached by a valid trace from startup satisfies the
invariant. -/
theorem inv_reachable (es : List Event) (h : validFrom initState es = true) :
    Inv (runEvents initState es) :=
  inv_runEvents es initState inv_init h

/-! ### Persistence roundtrip lemmas -/

theorem decodeMapping_marshalMapping (m : VideoMapping) :
    decodeMapping (marshalMapping m) = (m, false) := by
  rfl

theorem decodeEntries_save (reg : Registry) :
    ∀ (acc : Registry) (e : Bool),
      (∀ p ∈ reg, ∀ q ∈ acc, Prod.fst q ≠ Prod.fst p) →
      (reg.map Prod.fst).Nodup →
      decodeEntries acc e (reg.map fun p => (p.1, marshalMapping p.2)) = (acc ++ reg, e) := by
  induction reg with
  | nil =>
    intro acc e _ _
    simp [decodeEntries]
  | cons p reg ih =>
    obtain ⟨k, m⟩ := p
    intro acc e hdis hnd
    have hins : insertMapping acc k m = acc ++ [(k, m)] := by
      apply insertMapping_append
      intro q hq
      exact hdis (k, m) (List.mem_cons_self _ _) q hq
    rw [List.map_cons, List.nodup_cons] at hnd
    have hdis' : ∀ p' ∈ reg, ∀ q ∈ acc ++ [(k, m)], Prod.fst q ≠ Prod.fst p' := by
      intro p' hp' q hq
      rcases List.mem_append.mp hq with hqa | hqk
      · exact hdis p' (List.mem_cons_of_mem _ hp') q hqa
      · have hq' : q = (k, m) := by simpa using hqk
        subst hq'
        intro hkp
        exact hnd.1 (hkp ▸ List.mem_map.mpr ⟨p', hp', rfl⟩)
    simp only [List.map_cons, decodeEntries, decodeMapping_marshalMapping, Bool.or_false, hins]
    rw [ih (acc ++ [(k, m)]) e hdis' hnd.2]
    simp

/-- The save-then-load computation at the value level. -/
theorem load_save (reg : Registry) (hnd : (reg.map Prod.fst).Nodup) :
    load [] (ReadResult.ok (save reg)) = (reg, false) := by
  simp only [load, save, unmarshalRegistry]
  have h := decodeEntries_save reg [] false (by intro p _ q hq; simp at hq) hnd
  simpa using h

/-! ### Claim theorems -/

/-- C1: for a POST submission of a video that exists on disk, if a
record exists with status `completed` the handler responds with the
existing result (transcode dir and stream locator) and spawns no
runner; if a record exists with status `processing` it responds that a
job is already running, spawns no runner and creates no second record;
otherwise (no record, or a `failed` record) it creates a fresh
`processing` record, persists the registry (when the write succeeds),
spawns exactly one runner, and responds that transcoding started. -/
theorem C1_submission_policy (videoName : String) (hname : videoName ≠ "")
    (saveOk : Bool) (st : ServerState) :
    (∀ m, findMapping st.registry videoName = some m → m.status = "completed" →
      handleTranscode HttpMethod.post videoName StatResult.ok saveOk st =
        { response := TranscodeResponse.alreadyTranscoded m.transcodeDir
            (streamLocator m.transcodeDir),
          state := st, spawned := none }) ∧
    (∀ m, findMapping st.registry videoName = some m → m.status = "processing" →
      handleTranscode HttpMethod.post videoName StatResult.ok saveOk st =
        { response := TranscodeResponse.alreadyProcessing, state := st, spawned := none }) ∧
    ((findMapping st.registry videoName = none ∨
        (∃ m, findMapping st.registry videoName = some m ∧ m.status = "failed")) →
      handleTranscode HttpMethod.post videoName StatResult.ok saveOk st =
        { response := TranscodeResponse.started (transcodeDirOf videoName),
          state := { registry := insertMapping st.registry videoName
                       ⟨videoName, transcodeDirOf videoName, "processing"⟩,
                     disk := if saveOk
                             then some (save (insertMapping st.registry videoName
                               ⟨videoName, transcodeDirOf videoName, "processing"⟩))
                             else st.disk },
          spawned := some videoName }) := by
  refine ⟨?_, ?_, ?_⟩
  · intro m hm hs
    simp [handleTranscode, hname, hm, hs]
  · intro m hm hs
    have hne : ("processing" : String) ≠ "completed" := by decide
    simp [handleTranscode, hname, hm, hs, hne]
  · rintro (hfind | ⟨m, hm, hs⟩)
    · simp [handleTranscode, hname, hfind, startTranscodeJob, createRecord]
    · have hne1 : ("failed" : String) ≠ "completed" := by decide
      have hne2 : ("failed" : String) ≠ "processing" := by decide
      simp [handleTranscode, hname, hm, hs, hne1, hne2, startTranscodeJob, createRecord]

/-- Witness for C1 at a concrete input: fresh server, existing file. -/
theorem C1_submission_policy_witness :
    ("a.mp4" : String) ≠ "" ∧
    handleTranscode HttpMethod.post "a.mp4" StatResult.ok true
        { registry := [], disk := none } =
      { response := TranscodeResponse.started "a",
        state := { registry := [("a.mp4", ⟨"a.mp4", "a", "processing"⟩)],
                   disk := some (save [("a.mp4", ⟨"a.mp4", "a", "processing"⟩)]) },
        spawned := some "a.mp4" } := by
  refine ⟨by decide, ?_⟩
  have h := (C1_submission_policy "a.mp4" (by decide) true
    { registry := [], disk := none }).2.2 (Or.inl rfl)
  rw [h]
  rfl

/-- C2: after the encoder exits, the runner's outcome is determined
solely by the encoder's exit status — `completed` on success, `failed`
on any non-zero exit or launch failure; the in-place status update and
the persistence of the updated registry are produced by the same
atomic lock-protected transition (`transcode`), so the durable
document written is the marshalling of the already-updated registry
and no other record is touched. -/
theorem C2_runner_terminal_update (videoName : String) (encoderErr saveOk : Bool)
    (st : ServerState) (m : VideoMapping)
    (hm : findMapping st.registry videoName = some m) :
    ∃ st', transcode videoName encoderErr saveOk st = some st' ∧
      findMapping st'.registry videoName =
        some { m with status := if encoderErr then "failed" else "completed" } ∧
      (∀ w, w ≠ videoName → findMapping st'.registry w = findMapping st.registry w) ∧
      (saveOk = true → st'.disk = some (save st'.registry)) ∧
      (saveOk = false → st'.disk = st.disk) := by
  refine ⟨_, transcode_eq_of_find videoName encoderErr saveOk st m hm, ?_, ?_, ?_, ?_⟩
  · exact findMapping_insertMapping_self _ _ _
  · intro w hw
    exact findMapping_insertMapping_ne _ _ _ _ (fun h => hw h.symm)
  · intro hs
    subst hs
    rfl
  · intro hs
    subst hs
    rfl

/-- Witness for C2 at a concrete input: a processing record, encoder
succeeding, save succeeding. -/
theorem C2_runner_terminal_update_witness :
    findMapping [("a.mp4", (⟨"a.mp4", "a", "processing"⟩ : VideoMapping))] "a.mp4" =
      some ⟨"a.mp4", "a", "processing"⟩ ∧
    ∃ st', transcode "a.mp4" false true
        { registry := [("a.mp4", ⟨"a.mp4", "a", "processing"⟩)], disk := none } = some st' ∧
      findMapping st'.registry "a.mp4" = some ⟨"a.mp4", "a", "completed"⟩ := by
  refine ⟨by decide, ?_⟩
  obtain ⟨st', h1, h2, _⟩ := C2_runner_terminal_update "a.mp4" false true
    { registry := [("a.mp4", ⟨"a.mp4", "a", "processing"⟩)], disk := none }
    ⟨"a.mp4", "a", "processing"⟩ (by decide)
  exact ⟨st', h1, h2⟩

/-- C4: a status query for a name with no record returns not-found and
mutates nothing; otherwise it returns the record's video name,
transcode directory and status, includes the stream locator exactly
when the status is `completed`, and the locator for directory `dir` is
`/hls/dir/master.m3u8` — for `a.mp4`, whose stem is `a`, it is
`/hls/a/master.m3u8`. -/
theorem C4_status_lookup (videoName : String) (reg : Registry) (hname : videoName ≠ "") :
    (findMapping reg videoName = none →
      handleStatus videoName reg = (StatusResponse.notFound, reg)) ∧
    (∀ m, findMapping reg videoName = some m →
      handleStatus videoName reg =
        (StatusResponse.ok m.originalName m.transcodeDir m.status
          (if m.status = "completed" then some (streamLocator m.transcodeDir) else none),
         reg) ∧
      ((if m.status = "completed"
        then some (streamLocator m.transcodeDir) else none).isSome = true ↔
        m.status = "completed")) ∧
    streamLocator (transcodeDirOf "a.mp4") = "/hls/a/master.m3u8" := by
  refine ⟨?_, ?_, by decide⟩
  · intro hfind
    simp [handleStatus, hname, hfind]
  · intro m hm
    constructor
    · simp [handleStatus, hname, hm]
    · by_cases hc : m.status = "completed"
      · simp [hc]
      · simp [hc]

/-- Witness for C4 at a concrete input: a completed record for
`a.mp4`. -/
theorem C4_status_lookup_witness :
    ("a.mp4" : String) ≠ "" ∧
    handleStatus "a.mp4" [("a.mp4", ⟨"a.mp4", "a", "completed"⟩)] =
      (StatusResponse.ok "a.mp4" "a" "completed" (some "/hls/a/master.m3u8"),
       [("a.mp4", ⟨"a.mp4", "a", "completed"⟩)]) := by
  refine ⟨by decide, ?_⟩
  have h := ((C4_status_lookup "a.mp4" [("a.mp4", ⟨"a.mp4", "a", "completed"⟩)]
    (by decide)).2.1 ⟨"a.mp4", "a", "completed"⟩ (by decide)).1
  rw [h]
  rfl

/-- C3 counterexample: the handler's gate check (read lock) and record
creation (write lock) are separate critical sections, so two concurrent
submissions for the same video can interleave check-check-create-create:
both pass the gate against the empty registry and both spawn a runner
for the same record. The claimed prevention of two concurrent runners
therefore fails under this interleaving. -/
theorem C3_counterexample :
    (runSchedule twoSubmissions [0, 1, 0, 1]).spawned = ["a.mp4", "a.mp4"] ∧
    countOcc (runSchedule twoSubmissions [0, 1, 0, 1]).spawned "a.mp4" = 2 := by
  constructor
  · decide
  · decide

/-- C3 (amended): at most one active runner mutates a given record at
a time provided no two submissions interleave between their check and
create sections — i.e. in every trace where each accepted submission's
check-then-create executes as one atomic step (the trace semantics),
every reachable state has at most one active runner per video. Two
submissions whose critical sections interleave can both spawn runners
for the same record. -/
theorem C3_at_most_one_runner (es : List Event)
    (hes : validFrom initState es = true) (videoName : String) :
    countOcc (runEvents initState es).active videoName ≤ 1 :=
  (inv_reachable es hes videoName).1

/-- Witness for C3 (amended) at a concrete trace: the same video
submitted twice in sequence. -/
theorem C3_at_most_one_runner_witness :
    validFrom initState
      [Event.submit "a.mp4" StatResult.ok true,
       Event.submit "a.mp4" StatResult.ok true] = true ∧
    countOcc (runEvents initState
      [Event.submit "a.mp4" StatResult.ok true,
       Event.submit "a.mp4" StatResult.ok true]).active "a.mp4" ≤ 1 :=
  ⟨by decide, C3_at_most_one_runner _ (by decide) _⟩

/-- C5: saving a registry with unique keys (as a Go map always has)
and loading the resulting document into a fresh registry yields an
equivalent registry: no error, the same keys, and the same record
with the same `original_name`, `transcode_dir` and `status` for every
key. -/
theorem C5_save_load_roundtrip (reg : Registry) (hnd : (reg.map Prod.fst).Nodup) :
    (load [] (ReadResult.ok (save reg))).2 = false ∧
    ((load [] (ReadResult.ok (save reg))).1).map Prod.fst = reg.map Prod.fst ∧
    ∀ v, findMapping (load [] (ReadResult.ok (save reg))).1 v = findMapping reg v := by
  rw [load_save reg hnd]
  exact ⟨rfl, rfl, fun v => rfl⟩

/-- Witness for C5 at a concrete two-record registry. -/
theorem C5_save_load_roundtrip_witness :
    (([("a.mp4", ⟨"a.mp4", "a", "completed"⟩),
       ("b.mkv", ⟨"b.mkv", "b", "failed"⟩)] : Registry).map Prod.fst).Nodup ∧
    (load [] (ReadResult.ok (save
      [("a.mp4", ⟨"a.mp4", "a", "completed"⟩),
       ("b.mkv", ⟨"b.mkv", "b", "failed"⟩)]))).2 = false ∧
    findMapping (load [] (ReadResult.ok (save
      [("a.mp4", ⟨"a.mp4", "a", "completed"⟩),
       ("b.mkv", ⟨"b.mkv", "b", "failed"⟩)]))).1 "b.mkv" =
      findMapping [("a.mp4", ⟨"a.mp4", "a", "completed"⟩),
       ("b.mkv", ⟨"b.mkv", "b", "failed"⟩)] "b.mkv" :=
  ⟨by decide,
   (C5_save_load_roundtrip _ (by decide)).1,
   (C5_save_load_roundtrip _ (by decide)).2.2 "b.mkv"⟩

/-- A syntactically valid persisted document containing a
type-mismatch (`original_name` is a number) in one entry and a fully
valid second entry. -/
def corruptDoc : Json :=
  Json.obj
    [("a.mp4", Json.obj [("original_name", Json.num 5),
        ("transcode_dir", Json.str "a"), ("status", Json.str "failed")]),
     ("b.mp4", Json.obj [("original_name", Json.str "b.mp4"),
        ("transcode_dir", Json.str "b"), ("status", Json.str "completed")])]

/-- C6 counterexample: a deserialization (type) error is reported to
the caller, but startup does not proceed with an empty registry —
`json.Unmarshal` skips the mismatched field, completes the rest, and
the registry retains the decoded entries. -/
theorem C6_counterexample :
    (load [] (ReadResult.ok corruptDoc)).2 = true ∧
    (load [] (ReadResult.ok corruptDoc)).1 ≠ [] := by
  constructor
  · rfl
  · decide

/-- C6 (amended): a missing durable file is treated as no error and
leaves the registry as initialised (empty at startup); a read error or
a JSON syntax error is reported to the caller as a non-fatal warning
with the registry left as initialised; a type-mismatch
deserialization error on a syntactically valid document is likewise
reported as a non-fatal warning, but startup proceeds with the entries
and fields that decoded successfully (possibly a non-empty registry)
rather than with an empty one. -/
theorem C6_load_failure_handling (current : Registry) :
    load current ReadResult.notExist = (current, false) ∧
    load current ReadResult.readErr = (current, true) ∧
    load current ReadResult.syntaxErr = (current, true) ∧
    (∀ j, load current (ReadResult.ok j) = unmarshalRegistry current j) :=
  ⟨rfl, rfl, rfl, fun _ => rfl⟩

/-- C7 counterexample: a mutation followed by a failed save whose
failure is not logged by the caller. The submission for `a.mp4` with
the save write failing performs the registry mutation, yet the
handler's log output is empty — `handleTranscode` has no logging call
and discards `state.save()`'s error (`main.go` line 210); likewise the
runner's log output is identical whether its save fails or succeeds
(`main.go` line 292 discards the error), so no save failure is ever
logged, contradicting the claim that the caller logs it. -/
theorem C7_counterexample :
    (handleTranscode HttpMethod.post "a.mp4" StatResult.ok false
      { registry := [], disk := none }).state.registry =
      [("a.mp4", ⟨"a.mp4", "a", "processing"⟩)] ∧
    handleTranscodeLogs HttpMethod.post "a.mp4" StatResult.ok false
      { registry := [], disk := none } = [] ∧
    transcodeLogs "a.mp4" "" false false = transcodeLogs "a.mp4" "" false true := by
  refine ⟨rfl, rfl, rfl⟩

/-- C7 (amended): a failed save is reported to the caller only as
`save`'s return value, which both callers — the submission handler
(`main.go` line 210) and the runner (line 292) — discard without
logging, and they continue: whether the persistence write succeeds or
fails changes neither the response sent to the client, nor the
in-memory registry mutation, nor whether a runner is spawned, nor any
log line written — for the submission handler and for the runner's
terminal update alike. A failed save never fails the originating
request and never rolls back the in-memory mutation, which remains
authoritative for the process lifetime; the failure is simply
invisible everywhere except in the durable file. -/
theorem C7_save_failure_discarded :
    (∀ method videoName stat st,
      (handleTranscode method videoName stat false st).response =
        (handleTranscode method videoName stat true st).response ∧
      (handleTranscode method videoName stat false st).state.registry =
        (handleTranscode method videoName stat true st).state.registry ∧
      (handleTranscode method videoName stat false st).spawned =
        (handleTranscode method videoName stat true st).spawned ∧
      handleTranscodeLogs method videoName stat false st =
        handleTranscodeLogs method videoName stat true st ∧
      handleTranscodeLogs method videoName stat false st = []) ∧
    (∀ videoName encoderErr st,
      Option.map ServerState.registry (transcode videoName encoderErr false st) =
        Option.map ServerState.registry (transcode videoName encoderErr true st)) ∧
    (∀ videoName encoderDiagnostic encoderErr,
      transcodeLogs videoName encoderDiagnostic encoderErr false =
        transcodeLogs videoName encoderDiagnostic encoderErr true) := by
  refine ⟨?_, ?_, ?_⟩
  · intro method videoName stat st
    by_cases hm : method = HttpMethod.post
    · subst hm
      by_cases hv : videoName = ""
      · simp [handleTranscode, hv, handleTranscodeLogs]
      · by_cases hs : stat = StatResult.notExist
        · simp [handleTranscode, hv, hs, handleTranscodeLogs]
        · cases hfind : findMapping st.registry videoName with
          | none =>
            simp [handleTranscode, hv, hs, hfind, startTranscodeJob, createRecord,
              handleTranscodeLogs]
          | some mapping =>
            by_cases hc : mapping.status = "completed"
            · simp [handleTranscode, hv, hs, hfind, hc, handleTranscodeLogs]
            · by_cases hp : mapping.status = "processing"
              · simp [handleTranscode, hv, hs, hfind, hc, hp, handleTranscodeLogs]
              · simp [handleTranscode, hv, hs, hfind, hc, hp,
                  startTranscodeJob, createRecord, handleTranscodeLogs]
    · simp [handleTranscode, hm, handleTranscodeLogs]
  · intro videoName encoderErr st
    cases hfind : findMapping st.registry videoName with
    | none => simp [transcode, hfind]
    | some m => simp [transcode, hfind]
  · intro videoName encoderDiagnostic encoderErr
    rfl

/-- C8 counterexample: under the check/create interleaving the code
admits, a record is mutated twice by runners, including a
`completed` → `failed` transition. The schedule `[0, 1, 0, 1]` of two
concurrent submissions for `a.mp4` (both gate checks under the read
lock before either write-locked create, `main.go` lines 177-179 vs
204-211) spawns two runners for the one record; the first finishes
with encoder success and writes `completed`, then the second finishes
with encoder failure and overwrites it with `failed` — a second
mutation of the record, from a terminal status, contradicting the
claim that only its creating runner mutates it, exactly once, from
`processing`. -/
theorem C8_counterexample :
    ∃ st3 st4 : ServerState,
      transcode "a.mp4" false true (runSchedule twoSubmissions [0, 1, 0, 1]).srv =
        some st3 ∧
      findMapping st3.registry "a.mp4" = some ⟨"a.mp4", "a", "completed"⟩ ∧
      transcode "a.mp4" true true st3 = some st4 ∧
      findMapping st4.registry "a.mp4" = some ⟨"a.mp4", "a", "failed"⟩ := by
  refine ⟨_, _, rfl, rfl, rfl, rfl⟩

/-- C8 (amended): when each accepted submission's check-then-create
executes without interleaving with other events (the serialized
discipline under which at most one runner is active per record), then
across any enabled event from any reachable state a stored record is
never deleted, its `originalName` and `transcodeDir` never change, and
its status changes only as the lifecycle allows: either the record is
untouched, or the active runner's finish for that video moves it from
`processing` to `completed` or `failed`, or an accepted resubmission
replaces a `failed` record by a fresh `processing` one (the spec's
record replacement). Two submissions whose check and create sections
interleave can instead spawn two runners that mutate the record twice,
including out of a terminal status. -/
theorem C8_record_frame (es : List Event) (hes : validFrom initState es = true)
    (e : Event) (hev : eventValid (runEvents initState es) e = true)
    (videoName : String) (m : VideoMapping)
    (hm : findMapping (runEvents initState es).srv.registry videoName = some m) :
    ∃ m', findMapping (stepEvent (runEvents initState es) e).srv.registry videoName =
        some m' ∧
      m'.originalName = m.originalName ∧ m'.transcodeDir = m.transcodeDir ∧
      (m' = m ∨
        (m.status = "processing" ∧ (m'.status = "completed" ∨ m'.status = "failed") ∧
          ∃ encoderErr saveOk, e = Event.finish videoName encoderErr saveOk) ∨
        (m.status = "failed" ∧ m'.status = "processing" ∧
          ∃ stat saveOk, e = Event.submit videoName stat saveOk)) := by
  have hInv := inv_reachable es hes
  cases e with
  | submit v stat saveOk =>
    rcases handleTranscode_cases HttpMethod.post v stat saveOk
        (runEvents initState es).srv with ⟨hst, hsp⟩ | ⟨heq, hnp, hother⟩
    · refine ⟨m, ?_, rfl, rfl, Or.inl rfl⟩
      simp only [stepEvent, hsp, hst]
      exact hm
    · by_cases hv : v = videoName
      · subst hv
        have hg := (hInv v).2.2 m hm
        have hmo := hother m hm
        have hfailed : m.status = "failed" := by
          rcases hg.2.2 with h | h | h
          · exact absurd h hmo.2
          · exact absurd h hmo.1
          · exact h
        refine ⟨⟨v, transcodeDirOf v, "processing"⟩, ?_, ?_, ?_, ?_⟩
        · simp only [stepEvent, heq, startTranscodeJob, createRecord]
          exact findMapping_insertMapping_self _ _ _
        · exact hg.1.symm
        · exact hg.2.1.symm
        · exact Or.inr (Or.inr ⟨hfailed, rfl, stat, saveOk, rfl⟩)
      · refine ⟨m, ?_, rfl, rfl, Or.inl rfl⟩
        simp only [stepEvent, heq, startTranscodeJob, createRecord]
        rw [findMapping_insertMapping_ne _ _ _ _ hv]
        exact hm
  | finish v encoderErr saveOk =>
    have hc0 : countOcc (runEvents initState es).active v ≠ 0 := by
      simpa [eventValid] using hev
    obtain ⟨hle, hiff, hgood⟩ := hInv v
    have hc1 : countOcc (runEvents initState es).active v = 1 := by omega
    obtain ⟨m0, hm0, hm0s⟩ := hiff.mp hc1
    by_cases hv : v = videoName
    · subst hv
      have hmm : m0 = m := by
        rw [hm0] at hm
        injection hm
      subst hmm
      have hstep := transcode_eq_of_find v encoderErr saveOk
        (runEvents initState es).srv m0 hm0
      refine ⟨{ m0 with status := if encoderErr then "failed" else "completed" },
        ?_, rfl, rfl, ?_⟩
      · simp only [stepEvent, hstep]
        exact findMapping_insertMapping_self _ _ _
      · refine Or.inr (Or.inl ⟨hm0s, ?_, encoderErr, saveOk, rfl⟩)
        cases encoderErr
        · exact Or.inl rfl
        · exact Or.inr rfl
    · have hstep := transcode_eq_of_find v encoderErr saveOk
        (runEvents initState es).srv m0 hm0
      refine ⟨m, ?_, rfl, rfl, Or.inl rfl⟩
      simp only [stepEvent, hstep]
      rw [findMapping_insertMapping_ne _ _ _ _ hv]
      exact hm

/-- Witness for C8 at a concrete trace: one accepted submission, then
the runner finishes successfully. -/
theorem C8_record_frame_witness :
    validFrom initState [Event.submit "a.mp4" StatResult.ok true] = true ∧
    eventValid (runEvents initState [Event.submit "a.mp4" StatResult.ok true])
      (Event.finish "a.mp4" false true) = true ∧
    findMapping (runEvents initState
      [Event.submit "a.mp4" StatResult.ok true]).srv.registry "a.mp4" =
      some ⟨"a.mp4", "a", "processing"⟩ ∧
    ∃ m', findMapping (stepEvent (runEvents initState
        [Event.submit "a.mp4" StatResult.ok true])
        (Event.finish "a.mp4" false true)).srv.registry "a.mp4" = some m' ∧
      m'.originalName = "a.mp4" := by
  refine ⟨by decide, by decide, by decide, ?_⟩
  obtain ⟨m', h1, h2, _⟩ := C8_record_frame
    [Event.submit "a.mp4" StatResult.ok true] (by decide)
    (Event.finish "a.mp4" false true) (by decide)
    "a.mp4" ⟨"a.mp4", "a", "processing"⟩ (by decide)
  exact ⟨m', h1, h2⟩

/-- C9: the runner's terminal write indexes the registry without a
presence check (an absent entry would be a nil dereference, modelled
as `none`); for every reachable state and every video with an active
runner, the entry is present and the access succeeds — the nil branch
is unreachable for the runners the system actually spawns. -/
theorem C9_runner_access_never_absent (es : List Event)
    (hes : validFrom initState es = true) (videoName : String)
    (encoderErr saveOk : Bool)
    (hactive : countOcc (runEvents initState es).active videoName ≠ 0) :
    (transcode videoName encoderErr saveOk
      (runEvents initState es).srv).isSome = true := by
  obtain ⟨hle, hiff, _⟩ := inv_reachable es hes videoName
  have hc1 : countOcc (runEvents initState es).active videoName = 1 := by omega
  obtain ⟨m, hm, _⟩ := hiff.mp hc1
  rw [transcode_eq_of_find videoName encoderErr saveOk _ m hm]
  rfl

/-- Witness for C9 at a concrete trace: one accepted submission, then
its runner's terminal write succeeds. -/
theorem C9_runner_access_never_absent_witness :
    validFrom initState [Event.submit "a.mp4" StatResult.ok true] = true ∧
    countOcc (runEvents initState
      [Event.submit "a.mp4" StatResult.ok true]).active "a.mp4" ≠ 0 ∧
    (transcode "a.mp4" false true (runEvents initState
      [Event.submit "a.mp4" StatResult.ok true]).srv).isSome = true :=
  ⟨by decide, by decide,
   C9_runner_access_never_absent [Event.submit "a.mp4" StatResult.ok true]
     (by decide) "a.mp4" false true (by decide)⟩

/-- C10: the submission handler rejects with not-found only when the
`os.Stat` error satisfies `os.IsNotExist`; on any other stat error it
behaves exactly as if the file exists (the whole call is equal), and
the not-found response arises from the not-exist outcome. -/
theorem C10_stat_error_treated_as_exists (videoName : String) (saveOk : Bool)
    (st : ServerState) :
    handleTranscode HttpMethod.post videoName StatResult.otherErr saveOk st =
      handleTranscode HttpMethod.post videoName StatResult.ok saveOk st ∧
    (videoName ≠ "" →
      (handleTranscode HttpMethod.post videoName StatResult.notExist saveOk st).response =
        TranscodeResponse.videoNotFound) := by
  constructor
  · simp [handleTranscode]
  · intro h
    simp [handleTranscode, h]

/-- Witness for C10 at a concrete input. -/
theorem C10_stat_error_treated_as_exists_witness :
    handleTranscode HttpMethod.post "a.mp4" StatResult.otherErr true
        { registry := [], disk := none } =
      handleTranscode HttpMethod.post "a.mp4" StatResult.ok true
        { registry := [], disk := none } ∧
    (handleTranscode HttpMethod.post "a.mp4" StatResult.notExist true
        { registry := [], disk := none }).response =
      TranscodeResponse.videoNotFound :=
  ⟨(C10_stat_error_treated_as_exists "a.mp4" true { registry := [], disk := none }).1,
   (C10_stat_error_treated_as_exists "a.mp4" true { registry := [], disk := none }).2
     (by decide)⟩

end AbrTest
